import Mathlib

/-!
Verification of the mynewsreporter content-processing pipeline.

Shallow embedding of the Python modules
`src/modules/data_processing/content_scorer.py`,
`src/modules/data_processing/content_cleaner.py`,
`src/modules/data_processing/data_processor.py` and
`src/modules/report_generation/content_aggregator.py`.

Python strings are modeled as `List Char`; Python floats as `ℚ`
(exact arithmetic); `datetime` values as integer Unix timestamps
(seconds); Python `None` as `Option.none`.  Dicts appearing as data
are association lists in insertion order.
-/

namespace NewsPipeline

/-- Python `str`, modeled as a list of characters. -/
abbrev Str := List Char

/-- Python `str.lower()` (ASCII case folding, which covers every cased
character appearing in the repository's tables). -/
def lowerStr (s : Str) : Str := s.map Char.toLower

/-- Python `needle in hay` on strings: contiguous-substring test. -/
def strContains (hay needle : Str) : Bool :=
  match hay with
  | [] => needle.isEmpty
  | _ :: rest => List.isPrefixOf needle hay || strContains rest needle

/-- Python `str.strip()`: drop whitespace from both ends. -/
def trimStr (s : Str) : Str :=
  ((s.dropWhile Char.isWhitespace).reverse.dropWhile Char.isWhitespace).reverse

/-- Python `str.split(sep)` for a one-character separator, keeping empty
pieces (e.g. `"a\n\nb".split("\n") == ["a","","b"]`). -/
def splitOnChar (sep : Char) : Str → List Str
  | [] => [[]]
  | d :: rest =>
    match splitOnChar sep rest with
    | [] => [[]]
    | x :: xs => if d = sep then [] :: x :: xs else (d :: x) :: xs

/-- Embeds `sep.join(pieces)` — interleave a separator between pieces. -/
def joinStr (sep : Str) : List Str → Str
  | [] => []
  | [x] => x
  | x :: y :: rest => x ++ sep ++ joinStr sep (y :: rest)

/-- Helper for `wsSplit`: accumulates the current word (reversed). -/
def wsSplitAux : Str → Str → List Str
  | [], acc => if acc.isEmpty then [] else [acc.reverse]
  | c :: rest, acc =>
    if c.isWhitespace then
      if acc.isEmpty then wsSplitAux rest [] else acc.reverse :: wsSplitAux rest []
    else wsSplitAux rest (c :: acc)

/-- Python `str.split()` with no argument: split on whitespace runs,
discarding empty pieces. -/
def wsSplit (s : Str) : List Str := wsSplitAux s []

/-- Python `str.isdigit()` restricted to ASCII digits (the only digits the
claims exercise): non-empty and all characters are digits. -/
def pyIsdigit (s : Str) : Bool := !s.isEmpty && s.all Char.isDigit

/-- Fuel-driven body of `replaceAll`: one unit of fuel per scan step.
Every step consumes at least one character of `s` (the repository's
needles are non-empty), so fuel `s.length` always suffices. -/
def replaceAllFuel (needle repl : Str) : Nat → Str → Str
  | 0, s => s
  | _ + 1, [] => []
  | fuel + 1, c :: rest =>
    if needle.isPrefixOf (c :: rest) && !needle.isEmpty then
      repl ++ replaceAllFuel needle repl fuel ((c :: rest).drop needle.length)
    else
      c :: replaceAllFuel needle repl fuel rest

/-- Python `str.replace(needle, repl)`: replace every non-overlapping
occurrence left to right (the repository only uses non-empty needles). -/
def replaceAll (needle repl : Str) (s : Str) : Str :=
  replaceAllFuel needle repl s.length s

/-! ## ContentScorer (`content_scorer.py`)

Scores are rationals; the current time is an explicit parameter `now`
(the code reads `datetime.now`). -/

/-- The step schedule of `ContentScorer._calculate_timeliness`, as a
function of the age `now - publishTime` in seconds (the code compares
against `timedelta` values of 1h, 6h, 1d, 3d, 7d, 30d). -/
def timelinessStep (age : Int) : ℚ :=
  if age < 3600 then 1
  else if age < 21600 then 9/10
  else if age < 86400 then 8/10
  else if age < 259200 then 6/10
  else if age < 604800 then 4/10
  else if age < 2592000 then 2/10
  else 1/10

/-- Embeds `ContentScorer._calculate_timeliness(publish_time)`: absent publish
time scores 0.3, otherwise the step schedule of the age. -/
def calculate_timeliness (now : Int) (publish_time : Option Int) : ℚ :=
  match publish_time with
  | none => 3/10
  | some t => timelinessStep (now - t)

/-- Embeds `ContentScorer.authority_sources`: the fixed authority table, in the
source's insertion order (Python dict iteration order). -/
def authority_sources : List (Str × ℚ) :=
  [("openai".data, 1),
   ("google".data, 95/100),
   ("microsoft".data, 95/100),
   ("meta".data, 9/10),
   ("deepmind".data, 95/100),
   ("anthropic".data, 9/10),
   ("nvidia".data, 85/100),
   ("techcrunch".data, 8/10),
   ("verge".data, 75/100),
   ("wired".data, 75/100),
   ("mit technology review".data, 85/100),
   ("ieee".data, 85/100),
   ("arxiv".data, 9/10),
   ("nature".data, 95/100),
   ("science".data, 95/100),
   ("新华社".data, 85/100),
   ("人民日报".data, 85/100),
   ("中科院".data, 9/10),
   ("清华大学".data, 85/100),
   ("北京大学".data, 85/100)]

/-- Embeds `ContentScorer._calculate_authority(source, base_authority)`:
`if not source` returns the base authority; otherwise the first table key
that is a substring of the lowercased source wins (`max` with the base);
with no match, the base authority if positive, else 0.5. -/
def calculate_authority (source : Option Str) (base_authority : ℚ) : ℚ :=
  match source with
  | none => base_authority
  | some s =>
    if s.isEmpty then base_authority
    else
      match authority_sources.find? (fun p => strContains (lowerStr s) p.1) with
      | some p => max p.2 base_authority
      | none => if 0 < base_authority then base_authority else 1/2

/-! ### Claim C5: timeliness is monotone in recency -/

theorem timelinessStep_antitone (a b : Int) (h : a ≤ b) :
    timelinessStep b ≤ timelinessStep a := by
  unfold timelinessStep
  split_ifs <;> first | omega | norm_num

/-- C5: for any two publish times evaluated against the same current time,
the more recent one (the larger timestamp) receives a timeliness factor
greater than or equal to the older one, and an absent publish time scores
0.3. -/
theorem timeliness_monotone_in_recency
    (now t₁ t₂ : Int) (h : t₂ ≤ t₁) :
    calculate_timeliness now (some t₂) ≤ calculate_timeliness now (some t₁) ∧
    calculate_timeliness now none = 3/10 := by
  constructor
  · exact timelinessStep_antitone (now - t₁) (now - t₂) (by omega)
  · rfl

/-- Witness for C5 at the concrete inputs `now = 0`, `t₁ = 0`,
`t₂ = -90000`. -/
theorem timeliness_monotone_in_recency_witness :
    calculate_timeliness 0 (some (-90000)) ≤ calculate_timeliness 0 (some 0) ∧
    calculate_timeliness 0 none = 3/10 :=
  timeliness_monotone_in_recency 0 0 (-90000) (by omega)

/-! ### Claim C4: the authority factor -/

/-- The amended description of `calculate_authority` on a non-empty
source: if some table key is a case-insensitive substring of the source,
the result is `max` of a matching key's score and the base authority;
with no match it is the base authority if positive, else 0.5.  (For an
absent or empty — falsy — source the code returns the base authority
unconditionally, which is where the original claim fails.) -/
def AuthorityAmendedSpec (s : Str) (base r : ℚ) : Prop :=
  ((∃ p ∈ authority_sources, strContains (lowerStr s) p.1 = true) →
    ∃ p ∈ authority_sources, strContains (lowerStr s) p.1 = true ∧ r = max p.2 base) ∧
  ((∀ p ∈ authority_sources, strContains (lowerStr s) p.1 = false) →
    r = if 0 < base then base else 1/2)

/-- C4 (corrected): on every non-empty source string the authority factor
follows the table-match-or-fallback rule; an absent source yields the
base authority unconditionally. -/
theorem calculate_authority_some_eq (s : Str) (base : ℚ) (h : s ≠ []) :
    calculate_authority (some s) base =
      match authority_sources.find? (fun p => strContains (lowerStr s) p.1) with
      | some p => max p.2 base
      | none => if 0 < base then base else 1/2 := by
  have he : s.isEmpty = false := by simpa [List.isEmpty_iff] using h
  simp [calculate_authority, he]

theorem authority_amended (s : Str) (base : ℚ) (h : s ≠ []) :
    AuthorityAmendedSpec s base (calculate_authority (some s) base) ∧
    calculate_authority none base = base := by
  refine ⟨⟨?_, ?_⟩, rfl⟩
  · intro ⟨p, hp, hc⟩
    rcases hfind : authority_sources.find? (fun q => strContains (lowerStr s) q.1) with _ | q
    · rw [List.find?_eq_none] at hfind
      exact absurd hc (by simpa using hfind p hp)
    · refine ⟨q, List.mem_of_find?_eq_some hfind, by simpa using List.find?_some hfind, ?_⟩
      rw [calculate_authority_some_eq s base h, hfind]
  · intro hnone
    rcases hfind : authority_sources.find? (fun q => strContains (lowerStr s) q.1) with _ | q
    · rw [calculate_authority_some_eq s base h, hfind]
    · have := List.find?_some hfind
      have hq := hnone q (List.mem_of_find?_eq_some hfind)
      simp [hq] at this

/-- Witness for C4's amended theorem at the concrete source `"openai"`,
base authority 0. -/
theorem authority_amended_witness :
    AuthorityAmendedSpec "openai".data 0 (calculate_authority (some "openai".data) 0) ∧
    calculate_authority none 0 = 0 :=
  authority_amended "openai".data 0 (by decide)

/-- C4 counterexample: at the concrete input `source = ""`,
`base_authority = 0`, no table key matches and the base is not positive,
so the claim requires the factor 0.5 — but the code returns the base
authority 0 (the `if not source` branch fires before the fallback). -/
theorem authority_counterexample :
    calculate_authority (some "".data) 0 = 0 ∧
    authority_sources.all (fun p => !strContains (lowerStr "".data) p.1) = true ∧
    ¬ ((0:ℚ) < 0) ∧ (0:ℚ) ≠ 1/2 := by
  refine ⟨rfl, by decide, by norm_num, by norm_num⟩

/-! ### Claim C3: importance score boundedness and the error default

The remaining scorer factors.  `log10` is an explicit function parameter
(the code calls `math.log10`; its values never affect boundedness because
the engagement factor is clamped).  The scorer duck-types its input —
it probes `quality_score` and `entities` with `hasattr` but accesses
every other attribute unguarded, so an object lacking one of those
raises `AttributeError` into the outer `except`, which returns 0.5. -/

/-- Embeds `Keyword` (schemas.py): an extracted keyword with its score. -/
structure Keyword where
  term : Str
  score : ℚ

/-- Embeds `Entity` (schemas.py): a named entity with its label. -/
structure Entity where
  text : Str
  label : Str

/-- A value stored in the `Dict[str, Any]` engagement-metrics map: a
number, or a value of some other runtime type (on which `max(1, ·)`
raises `TypeError`). -/
inductive EngVal
  | num (q : ℚ)
  | other

/-- A Python attribute that may be present or absent on a duck-typed
object; plain access to an absent attribute raises `AttributeError`. -/
inductive Attr (α : Type)
  | absent
  | present (a : α)

/-- Plain attribute access (`content.field`): errors when absent. -/
def Attr.get? {α : Type} : Attr α → Except Unit α
  | .absent => .error ()
  | .present a => .ok a

/-- The scorer's view of a content object, with every field an `Attr`
(the code guards only `quality_score` and `entities` with `hasattr`). -/
structure ScoredContent where
  publish_time : Attr (Option Int)
  source : Attr (Option Str)
  source_authority : Attr ℚ
  keywords : Attr (List Keyword)
  categories : Attr (List Str)
  engagement_metrics : Attr (Option (List (Str × EngVal)))
  quality_score : Attr ℚ
  title : Attr Str
  entities : Attr (List Entity)

/-- The AI-indicator keyword list of `_calculate_relevance`. -/
def ai_keywords : List Str :=
  ["ai".data, "artificial intelligence".data, "人工智能".data,
   "machine learning".data, "机器学习".data, "deep learning".data,
   "深度学习".data, "neural".data, "神经".data]

/-- The AI-category allowlist of `_calculate_relevance`. -/
def ai_categories : List Str :=
  ["技术".data, "研究".data, "AI".data, "人工智能".data,
   "Technology".data, "Research".data]

/-- Embeds `ContentScorer._calculate_relevance(keywords, categories)`. -/
def calculate_relevance (keywords : List Keyword) (categories : List Str) : ℚ :=
  let score : ℚ := 1/2
  let score :=
    if keywords.isEmpty then score
    else
      let keyword_terms := keywords.map (fun kw => lowerStr kw.term)
      let ai_keyword_count :=
        (keyword_terms.filter (fun term => ai_keywords.any (fun k => strContains term k))).length
      if 0 < ai_keyword_count then score + min (3/10) ((ai_keyword_count : ℚ) * (1/10))
      else score
  let score :=
    if categories.isEmpty then score
    else if categories.any (fun cat => ai_categories.contains cat) then score + 2/10
    else score
  min 1 score

/-- Embeds `metrics.get(key, 0)` on the engagement map. -/
def dictGetEng (m : List (Str × EngVal)) (k : Str) : EngVal :=
  match m.find? (fun p => p.1 == k) with
  | some p => p.2
  | none => .num 0

/-- Python `max(1, v)` on a dynamically typed metric value: `TypeError`
on a non-numeric value. -/
def pyMaxOne : EngVal → Except Unit ℚ
  | .num q => .ok (max 1 q)
  | .other => .error ()

/-- The body of the `try` block of `_calculate_engagement`. -/
def engagementBody (log10 : ℚ → ℚ) (m : List (Str × EngVal)) : Except Unit ℚ := do
  let views ← pyMaxOne (dictGetEng m "views".data)
  let shares ← pyMaxOne (dictGetEng m "shares".data)
  let comments ← pyMaxOne (dictGetEng m "comments".data)
  let likes ← pyMaxOne (dictGetEng m "likes".data)
  let view_score := log10 views / 6
  let share_score := log10 shares / 4
  let comment_score := log10 comments / 3
  let like_score := log10 likes / 5
  let engagement_score :=
    view_score * (2/10) + share_score * (3/10) + comment_score * (3/10) + like_score * (2/10)
  pure (max 0 (min 1 engagement_score))

/-- Embeds `ContentScorer._calculate_engagement(metrics)`: 0.5 for an absent or
empty map, and 0.5 from its own local `except` on an internal error. -/
def calculate_engagement (log10 : ℚ → ℚ) (metrics : Option (List (Str × EngVal))) : ℚ :=
  match metrics with
  | none => 1/2
  | some m =>
    if m.isEmpty then 1/2
    else
      match engagementBody log10 m with
      | .ok q => q
      | .error _ => 1/2

/-- The novelty-indicator list of `_calculate_uniqueness`. -/
def unique_terms : List Str :=
  ["首次".data, "first".data, "创新".data, "innovative".data,
   "突破".data, "breakthrough".data, "新型".data, "novel".data,
   "独家".data, "exclusive".data, "原创".data, "original".data]

/-- Embeds `ContentScorer._calculate_uniqueness(keywords)`. -/
def calculate_uniqueness (keywords : List Keyword) : ℚ :=
  if keywords.isEmpty then 1/2
  else
    let keyword_terms := keywords.map (fun kw => lowerStr kw.term)
    let bump :=
      (unique_terms.filter (fun t => keyword_terms.any (fun kt => strContains kt t))).length
    min 1 (1/2 + (bump : ℚ) * (1/10))

/-- Embeds `ContentScorer.important_keywords`: the title-boost table, in the
source's insertion order. -/
def important_keywords : List (Str × ℚ) :=
  [("breakthrough".data, 1),
   ("revolutionary".data, 9/10),
   ("state-of-the-art".data, 85/100),
   ("novel".data, 8/10),
   ("significant".data, 75/100),
   ("突破".data, 1),
   ("革命性".data, 9/10),
   ("重大".data, 85/100),
   ("创新".data, 8/10),
   ("首次".data, 85/100),
   ("最新".data, 7/10)]

/-- Embeds `ContentScorer._calculate_boost_factor(content)`: unguarded access to
`content.title` (may raise), `hasattr`-guarded access to `entities` and
`quality_score`. -/
def calculate_boost_factor (c : ScoredContent) : Except Unit ℚ := do
  let title ← c.title.get?
  let boost1 : ℚ :=
    if title.isEmpty then 1
    else
      important_keywords.foldl
        (fun boost p =>
          if strContains (lowerStr title) p.1 then max boost (1 + (p.2 - 1) * (1/2))
          else boost)
        1
  let boost2 : ℚ :=
    match c.entities with
    | .present es =>
      if 3 ≤ (es.filter (fun e => e.label == "ORG".data)).length then boost1 * (11/10)
      else boost1
    | .absent => boost1
  let boost3 : ℚ :=
    match c.quality_score with
    | .present q => if 8/10 < q then boost2 * (21/20) else boost2
    | .absent => boost2
  pure boost3

/-- The body of the `try` block of `calculate_importance`: the weighted
sum of the six factors (weights 0.25/0.20/0.20/0.15/0.10/0.10) times the
boost factor.  Any `AttributeError` from an unguarded field propagates to
the caller's `except`. -/
def importanceBody (log10 : ℚ → ℚ) (now : Int) (c : ScoredContent) : Except Unit ℚ := do
  let pt ← c.publish_time.get?
  let timeliness := calculate_timeliness now pt
  let src ← c.source.get?
  let base ← c.source_authority.get?
  let authority := calculate_authority src base
  let kws ← c.keywords.get?
  let cats ← c.categories.get?
  let relevance := calculate_relevance kws cats
  let m ← c.engagement_metrics.get?
  let engagement := calculate_engagement log10 m
  let quality : ℚ := match c.quality_score with | .present q => q | .absent => 1/2
  let uniqueness := calculate_uniqueness kws
  let total_score :=
    timeliness * (25/100) + authority * (20/100) + relevance * (20/100) +
      engagement * (15/100) + quality * (10/100) + uniqueness * (10/100)
  let boost ← calculate_boost_factor c
  pure (total_score * boost)

/-- Embeds `ContentScorer.calculate_importance(content)`: the clamped weighted
score, or the neutral default 0.5 when the body raises. -/
def calculate_importance (log10 : ℚ → ℚ) (now : Int) (c : ScoredContent) : ℚ :=
  match importanceBody log10 now c with
  | .ok t => max 0 (min 1 t)
  | .error _ => 1/2

/-- C3: for every content object (any keywords, entities, categories,
engagement metrics, publish time, quality score, title — including
objects whose dynamic engagement values or absent attributes trigger the
internal error paths) the importance score lies in [0,1], and whenever
the internal computation raises, the result is exactly 0.5. -/
theorem importance_bounded (log10 : ℚ → ℚ) (now : Int) (c : ScoredContent) :
    0 ≤ calculate_importance log10 now c ∧
    calculate_importance log10 now c ≤ 1 ∧
    (importanceBody log10 now c = .error () → calculate_importance log10 now c = 1/2) := by
  rcases h : importanceBody log10 now c with e | t
  · have hr : calculate_importance log10 now c = 1/2 := by
      unfold calculate_importance
      rw [h]
    refine ⟨by rw [hr]; norm_num, by rw [hr]; norm_num, fun _ => hr⟩
  · have hr : calculate_importance log10 now c = max 0 (min 1 t) := by
      unfold calculate_importance
      rw [h]
    refine ⟨by rw [hr]; exact le_max_left 0 _, by rw [hr]; exact max_le (by norm_num) (min_le_left 1 t), ?_⟩
    intro he
    exact absurd he (by simp)

/-- The outer error path of `calculate_importance` is genuinely
reachable: an object lacking the unguarded `publish_time` attribute makes
the body raise (and, by `importance_bounded`, score exactly 0.5). -/
theorem importanceBody_error_reachable :
    importanceBody (fun q => q) 0
      ⟨.absent, .present none, .present 0, .present [], .present [],
       .present none, .absent, .present [], .absent⟩ = .error () := rfl

/-! ## ProcessedContent (schemas.py) and ContentAggregator
(`content_aggregator.py`) -/

/-- The sentiment dict produced by `DataProcessor._analyze_sentiment`:
`{"label", "confidence", "scores": {"positive", "negative"}}`.  The dict
always carries a label, so `sentiment.get("label", "neutral")` is its
`label` field. -/
structure Sentiment where
  label : Str
  confidence : ℚ
  pos_score : ℚ
  neg_score : ℚ

/-- Embeds `ProcessedContent` (schemas.py), with the fields the aggregator and
processor read. -/
structure ProcessedContent where
  content_id : Str
  title : Str
  cleaned_content : Str
  summary : Option Str
  keywords : List Keyword
  entities : List Entity
  categories : List Str
  tags : List Str
  importance_score : ℚ
  quality_score : ℚ
  sentiment : Option Sentiment
  source : Option Str
  author : Option Str
  publish_time : Option Int
  url : Option Str
  extracted_links : List Str
  source_authority : ℚ
  engagement_metrics : Option (List (Str × EngVal))
  processing_time : Option Int

/-! ### Claim C6: `sort_by_importance` is a stable descending sort -/

/-- One step of the stable descending sort: insert `x` before the first
element whose score is ≤ `x`'s (elements that came earlier in the input
and have an equal score remain in front of later ones). -/
def insertDesc (x : ProcessedContent) : List ProcessedContent → List ProcessedContent
  | [] => [x]
  | y :: ys =>
    if y.importance_score ≤ x.importance_score then x :: y :: ys
    else y :: insertDesc x ys

/-- Embeds `ContentAggregator.sort_by_importance(contents)`: Python's
`sorted(contents, key=importance_score, reverse=True)`, i.e. the stable
sort by descending importance score (Python's `sorted` is specified as
stable and does not mutate its input), embedded as the stable insertion
sort. -/
def sort_by_importance : List ProcessedContent → List ProcessedContent
  | [] => []
  | x :: xs => insertDesc x (sort_by_importance xs)

theorem insertDesc_perm (x : ProcessedContent) (l : List ProcessedContent) :
    (insertDesc x l).Perm (x :: l) := by
  induction l with
  | nil => exact List.Perm.refl _
  | cons y ys ih =>
    unfold insertDesc
    split_ifs
    · exact List.Perm.refl _
    · exact ((ih.cons y).trans (List.Perm.swap x y ys))

theorem sort_by_importance_perm (l : List ProcessedContent) :
    (sort_by_importance l).Perm l := by
  induction l with
  | nil => exact List.Perm.refl _
  | cons x xs ih => exact (insertDesc_perm x (sort_by_importance xs)).trans (ih.cons x)

theorem insertDesc_pairwise (x : ProcessedContent) (l : List ProcessedContent)
    (h : l.Pairwise (fun a b => b.importance_score ≤ a.importance_score)) :
    (insertDesc x l).Pairwise (fun a b => b.importance_score ≤ a.importance_score) := by
  induction l with
  | nil => simp [insertDesc]
  | cons y ys ih =>
    rcases List.pairwise_cons.mp h with ⟨hy, hys⟩
    unfold insertDesc
    split_ifs with hle
    · refine List.pairwise_cons.mpr ⟨?_, h⟩
      intro b hb
      rcases List.mem_cons.mp hb with rfl | hb
      · exact hle
      · exact le_trans (hy b hb) hle
    · refine List.pairwise_cons.mpr ⟨?_, ih hys⟩
      intro b hb
      rcases List.mem_cons.mp ((insertDesc_perm x ys).mem_iff.mp hb) with rfl | hb'
      · exact le_of_lt (lt_of_not_le hle)
      · exact hy b hb'

theorem filter_insertDesc (q : ℚ) (x : ProcessedContent) (l : List ProcessedContent) :
    (insertDesc x l).filter (fun y => y.importance_score == q) =
      if x.importance_score == q then
        x :: l.filter (fun y => y.importance_score == q)
      else l.filter (fun y => y.importance_score == q) := by
  induction l with
  | nil =>
    rcases hx : (x.importance_score == q) with _ | _ <;>
      simp [insertDesc, List.filter_cons, hx]
  | cons y ys ih =>
    unfold insertDesc
    by_cases hle : y.importance_score ≤ x.importance_score
    · rw [if_pos hle]
      rcases hx : (x.importance_score == q) with _ | _ <;> simp [List.filter_cons, hx]
    · rw [if_neg hle]
      rcases hx : (x.importance_score == q) with _ | _
      · simp [List.filter_cons, ih, hx]
      · have hxq : x.importance_score = q := by simpa using hx
        have hyq : (y.importance_score == q) = false := by
          have hne : ¬ y.importance_score = q := fun hy => hle (le_of_eq (hy.trans hxq.symm))
          simpa using hne
        simp [List.filter_cons, ih, hx, hyq]

theorem sort_by_importance_filter (l : List ProcessedContent) (q : ℚ) :
    (sort_by_importance l).filter (fun y => y.importance_score == q) =
      l.filter (fun y => y.importance_score == q) := by
  induction l with
  | nil => rfl
  | cons x xs ih =>
    show (insertDesc x (sort_by_importance xs)).filter _ = _
    rw [filter_insertDesc]
    rcases hx : (x.importance_score == q) with _ | _ <;> simp [List.filter_cons, hx, ih]

/-- C6: `sort_by_importance` returns a permutation of the input whose
importance-score sequence is non-increasing, and documents with equal
importance score keep their original relative order (for every score
value, filtering the output to that score gives exactly the input's
subsequence); the input itself is not mutated (the embedding is a pure
function of the input list). -/
theorem sort_by_importance_stable_desc (l : List ProcessedContent) :
    (sort_by_importance l).Perm l ∧
    (sort_by_importance l).Pairwise (fun a b => b.importance_score ≤ a.importance_score) ∧
    ∀ q : ℚ, (sort_by_importance l).filter (fun y => y.importance_score == q) =
      l.filter (fun y => y.importance_score == q) := by
  refine ⟨sort_by_importance_perm l, ?_, sort_by_importance_filter l⟩
  induction l with
  | nil => simp [sort_by_importance]
  | cons x xs ih => exact insertDesc_pairwise x (sort_by_importance xs) ih

/-! ### Claim C9: `aggregate_by_category` covers every document -/

/-- Embeds `categorized[key].append(c)` on the insertion-ordered group list
(`defaultdict(list)`: a fresh key is appended at the end). -/
def addToGroup (groups : List (Str × List ProcessedContent)) (key : Str)
    (c : ProcessedContent) : List (Str × List ProcessedContent) :=
  match groups with
  | [] => [(key, [c])]
  | g :: gs => if g.1 == key then (g.1, g.2 ++ [c]) :: gs else g :: addToGroup gs key c

/-- The loop body of `aggregate_by_category`: a document with a
non-empty category list joins every one of its categories' groups; one
with an empty (or absent) list joins the `"未分类"` catch-all group. -/
def categorizeStep (groups : List (Str × List ProcessedContent))
    (content : ProcessedContent) : List (Str × List ProcessedContent) :=
  if content.categories.isEmpty then addToGroup groups "未分类".data content
  else content.categories.foldl (fun gs category => addToGroup gs category content) groups

/-- Embeds `ContentAggregator.aggregate_by_category(contents)`: group by
category (multi-membership, `"未分类"` for uncategorized), then sort each
group by descending importance. -/
def aggregate_by_category (contents : List ProcessedContent) :
    List (Str × List ProcessedContent) :=
  (contents.foldl categorizeStep []).map (fun g => (g.1, sort_by_importance g.2))

theorem addToGroup_adds (groups : List (Str × List ProcessedContent)) (key : Str)
    (c : ProcessedContent) : ∃ g ∈ addToGroup groups key c, c ∈ g.2 := by
  induction groups with
  | nil => exact ⟨(key, [c]), by simp [addToGroup]⟩
  | cons g gs ih =>
    unfold addToGroup
    split_ifs
    · exact ⟨(g.1, g.2 ++ [c]), by simp⟩
    · rcases ih with ⟨g', hg', hc⟩
      exact ⟨g', List.mem_cons_of_mem g hg', hc⟩

theorem addToGroup_preserves (groups : List (Str × List ProcessedContent)) (key : Str)
    (c d : ProcessedContent) (h : ∃ g ∈ groups, c ∈ g.2) :
    ∃ g ∈ addToGroup groups key d, c ∈ g.2 := by
  induction groups with
  | nil => simp at h
  | cons g gs ih =>
    rcases h with ⟨g', hg', hc⟩
    unfold addToGroup
    split_ifs
    · rcases List.mem_cons.mp hg' with h1 | h1
      · subst h1
        exact ⟨(g'.1, g'.2 ++ [d]), by simp, List.mem_append_left _ hc⟩
      · exact ⟨g', List.mem_cons_of_mem _ h1, hc⟩
    · rcases List.mem_cons.mp hg' with h1 | h1
      · subst h1
        exact ⟨g', List.mem_cons_self _ _, hc⟩
      · rcases ih ⟨g', h1, hc⟩ with ⟨g'', hg'', hc''⟩
        exact ⟨g'', List.mem_cons_of_mem _ hg'', hc''⟩

theorem catFoldl_preserves (cats : List Str) (groups : List (Str × List ProcessedContent))
    (c d : ProcessedContent) (h : ∃ g ∈ groups, c ∈ g.2) :
    ∃ g ∈ cats.foldl (fun gs category => addToGroup gs category d) groups, c ∈ g.2 := by
  induction cats generalizing groups with
  | nil => exact h
  | cons k ks ih => exact ih _ (addToGroup_preserves groups k c d h)

theorem categorizeStep_adds (groups : List (Str × List ProcessedContent))
    (content : ProcessedContent) : ∃ g ∈ categorizeStep groups content, content ∈ g.2 := by
  unfold categorizeStep
  by_cases he : content.categories.isEmpty
  · rw [if_pos he]
    exact addToGroup_adds groups _ content
  · rw [if_neg he]
    rcases hc : content.categories with _ | ⟨k, ks⟩
    · rw [hc] at he
      simp at he
    · exact catFoldl_preserves ks _ content content (addToGroup_adds groups k content)

theorem categorizeStep_preserves (groups : List (Str × List ProcessedContent))
    (c d : ProcessedContent) (h : ∃ g ∈ groups, c ∈ g.2) :
    ∃ g ∈ categorizeStep groups d, c ∈ g.2 := by
  unfold categorizeStep
  split_ifs
  · exact addToGroup_preserves groups _ c d h
  · exact catFoldl_preserves _ _ c d h

theorem categorizeFoldl_adds (l : List ProcessedContent)
    (groups : List (Str × List ProcessedContent)) (c : ProcessedContent)
    (h : c ∈ l ∨ ∃ g ∈ groups, c ∈ g.2) :
    ∃ g ∈ l.foldl categorizeStep groups, c ∈ g.2 := by
  induction l generalizing groups with
  | nil =>
    rcases h with h | h
    · simp at h
    · exact h
  | cons d rest ih =>
    rcases h with h | h
    · rcases List.mem_cons.mp h with h1 | h1
      · subst h1
        exact ih _ (Or.inr (categorizeStep_adds groups c))
      · exact ih _ (Or.inl h1)
    · exact ih _ (Or.inr (categorizeStep_preserves groups c d h))

/-- C9: every document of the corpus appears in at least one group of
`aggregate_by_category` — documents with an empty category list land in
the `"未分类"` catch-all. -/
theorem aggregate_by_category_covers (contents : List ProcessedContent)
    (content : ProcessedContent) (h : content ∈ contents) :
    ∃ g ∈ aggregate_by_category contents, content ∈ g.2 := by
  rcases categorizeFoldl_adds contents [] content (Or.inl h) with ⟨g, hg, hc⟩
  refine ⟨(g.1, sort_by_importance g.2), List.mem_map.mpr ⟨g, hg, rfl⟩, ?_⟩
  exact (sort_by_importance_perm g.2).mem_iff.mpr hc

/-- A minimal concrete document (empty categories) for witnesses. -/
def samplePC : ProcessedContent :=
  ⟨"id1".data, "Title".data, "body".data, none, [], [], [], [], 0, 0, none,
   none, none, none, none, [], 0, none, none⟩

/-- Witness for C9 at the concrete one-document corpus `[samplePC]`
(whose category list is empty, so it lands in `"未分类"`). -/
theorem aggregate_by_category_covers_witness :
    ∃ g ∈ aggregate_by_category [samplePC], samplePC ∈ g.2 :=
  aggregate_by_category_covers [samplePC] samplePC (List.Mem.head [])

/-! ### Claim C10: `deduplicate_by_title` ignores its threshold -/

/-- The dedup key: `content.title.lower().strip()`. -/
def normTitle (c : ProcessedContent) : Str := trimStr (lowerStr c.title)

/-- Python `t in seen` for the seen-titles set. -/
def strMem (t : Str) (seen : List Str) : Bool := seen.any (fun s => t == s)

/-- The `seen_titles` loop of `deduplicate_by_title`. -/
def dedupAux (seen : List Str) : List ProcessedContent → List ProcessedContent
  | [] => []
  | c :: rest =>
    if strMem (normTitle c) seen then dedupAux seen rest
    else c :: dedupAux (normTitle c :: seen) rest

/-- Embeds `ContentAggregator.deduplicate_by_title(contents, similarity_threshold)`:
the threshold parameter is accepted but never read; dedup is by exact
case-insensitive whitespace-trimmed title equality, first occurrence
winning. -/
def deduplicate_by_title (contents : List ProcessedContent)
    (similarity_threshold : ℚ) : List ProcessedContent :=
  if contents.isEmpty then [] else dedupAux [] contents

/-- Specification-side dedup: keep each first occurrence, dropping every
later document with the same normalized title. -/
def dedupByTitleSpec : List ProcessedContent → List ProcessedContent
  | [] => []
  | c :: rest =>
    c :: dedupByTitleSpec (rest.filter (fun d => !(normTitle d == normTitle c)))
termination_by l => l.length
decreasing_by
  simp only [List.length_cons]
  exact Nat.lt_succ_of_le (List.length_filter_le _ _)

theorem dedupAux_cons (seen : List Str) (c : ProcessedContent)
    (rest : List ProcessedContent) :
    dedupAux seen (c :: rest) =
      if strMem (normTitle c) seen then dedupAux seen rest
      else c :: dedupAux (normTitle c :: seen) rest := rfl

theorem strMem_cons (t x : Str) (seen : List Str) :
    strMem t (x :: seen) = ((t == x) || strMem t seen) := by
  simp [strMem, List.any_cons]

theorem dedupAux_eq_spec (l : List ProcessedContent) (seen : List Str) :
    dedupAux seen l = dedupByTitleSpec (l.filter (fun d => !strMem (normTitle d) seen)) := by
  induction l generalizing seen with
  | nil => simp [dedupAux, dedupByTitleSpec]
  | cons c rest ih =>
    rcases hs : strMem (normTitle c) seen with _ | _
    · rw [dedupAux_cons, if_neg (by simp [hs]), ih (normTitle c :: seen)]
      rw [show (c :: rest).filter (fun d => !strMem (normTitle d) seen) =
          c :: rest.filter (fun d => !strMem (normTitle d) seen) by
            simp [List.filter_cons, hs]]
      rw [show dedupByTitleSpec (c :: rest.filter (fun d => !strMem (normTitle d) seen)) =
          c :: dedupByTitleSpec ((rest.filter (fun d => !strMem (normTitle d) seen)).filter
            (fun d => !(normTitle d == normTitle c))) by
            simp only [dedupByTitleSpec]]
      congr 1
      rw [List.filter_filter]
      congr 1
      apply List.filter_congr
      intro d _
      rcases h1 : (normTitle d == normTitle c) with _ | _ <;>
        rcases h2 : strMem (normTitle d) seen with _ | _ <;>
          simp [strMem_cons, h1, h2]
    · rw [dedupAux_cons, if_pos hs, ih seen]
      congr 1
      simp [List.filter_cons, hs]

/-- C10: `deduplicate_by_title` is independent of its
`similarity_threshold` parameter — any two thresholds give identical
output — and the result is exactly first-occurrence-wins dedup by
case-insensitive, whitespace-trimmed title equality. -/
theorem deduplicate_by_title_threshold_independent :
    (∀ (contents : List ProcessedContent) (t₁ t₂ : ℚ),
      deduplicate_by_title contents t₁ = deduplicate_by_title contents t₂) ∧
    (∀ (contents : List ProcessedContent) (t : ℚ),
      deduplicate_by_title contents t = dedupByTitleSpec contents) := by
  refine ⟨fun _ _ _ => rfl, fun contents t => ?_⟩
  rcases contents with _ | ⟨c, rest⟩
  · simp [deduplicate_by_title, dedupByTitleSpec]
  · show dedupAux [] (c :: rest) = dedupByTitleSpec (c :: rest)
    rw [dedupAux_eq_spec]
    congr 1
    apply List.filter_eq_self.mpr
    intro a _
    rfl

/-! ### Claim C8: `calculate_statistics` -/

/-- The structure returned by `ContentAggregator.calculate_statistics`.
The count maps are insertion-ordered association lists
(`defaultdict(int)`); `date_range` is `(start, end, days)` or absent. -/
structure Statistics where
  total_count : Nat
  avg_importance_score : ℚ
  categories : List (Str × Nat)
  sources : List (Str × Nat)
  sentiment_distribution : List (Str × Nat)
  date_range : Option (Int × Int × Int)

/-- Embeds `counts[key] += 1` on an insertion-ordered count map
(`defaultdict(int)`: a fresh key is appended at the end with count 1). -/
def bumpCount (counts : List (Str × Nat)) (key : Str) : List (Str × Nat) :=
  match counts with
  | [] => [(key, 1)]
  | e :: es => if e.1 == key then (e.1, e.2 + 1) :: es else e :: bumpCount es key

/-- Round half to even at integer precision (Python's `round`). -/
def roundHalfEven (q : ℚ) : Int :=
  let f := ⌊q⌋
  if q - f < 1/2 then f
  else if 1/2 < q - f then f + 1
  else if f % 2 = 0 then f else f + 1

/-- Python `round(x, 3)`: round to 3 decimal places, half to even. -/
def pyRound3 (q : ℚ) : ℚ := (roundHalfEven (q * 1000) : ℚ) / 1000

/-- The time `calculate_statistics` collects per document:
`publish_time`, else `processing_time`, else nothing. -/
def statTime (c : ProcessedContent) : Option Int :=
  match c.publish_time with
  | some t => some t
  | none => c.processing_time

/-- Embeds `ContentAggregator.calculate_statistics(contents)`: the all-zero
structure on an empty corpus; otherwise counts, the 3-decimal-rounded
average importance score, and the min/max/day-span date range. -/
def calculate_statistics (contents : List ProcessedContent) : Statistics :=
  if contents.isEmpty then ⟨0, 0, [], [], [], none⟩
  else
    let total_count := contents.length
    let avg_importance :=
      (contents.foldl (fun a c => a + c.importance_score) 0) / (total_count : ℚ)
    let category_stats := contents.foldl
      (fun st c =>
        if c.categories.isEmpty then st
        else c.categories.foldl (fun st2 cat => bumpCount st2 cat) st)
      []
    let source_stats := contents.foldl
      (fun st c => bumpCount st (c.source.getD "未知来源".data)) []
    let sentiment_stats := contents.foldl
      (fun st c =>
        match c.sentiment with
        | some s => bumpCount st s.label
        | none => st)
      []
    let times := contents.filterMap statTime
    let date_range :=
      match times with
      | [] => none
      | t :: ts =>
        let mn := ts.foldl min t
        let mx := ts.foldl max t
        some (mn, mx, (mx - mn) / 86400 + 1)
    ⟨total_count, pyRound3 avg_importance, category_stats, source_stats,
      sentiment_stats, date_range⟩

/-- C8: on the empty corpus `calculate_statistics` returns the structure
with count 0, average 0, empty maps and no date range (no error — the
embedding is a total function); on a non-empty corpus the average
importance score is the 3-decimal-rounded mean and the count is the
corpus size. -/
theorem calculate_statistics_spec :
    calculate_statistics [] = ⟨0, 0, [], [], [], none⟩ ∧
    ∀ contents : List ProcessedContent, contents ≠ [] →
      (calculate_statistics contents).avg_importance_score =
        pyRound3 ((contents.foldl (fun a c => a + c.importance_score) 0) /
          (contents.length : ℚ)) ∧
      (calculate_statistics contents).total_count = contents.length := by
  refine ⟨rfl, fun contents h => ?_⟩
  have he : contents.isEmpty = false := by simpa [List.isEmpty_iff] using h
  rw [show calculate_statistics contents =
      if contents.isEmpty then ⟨0, 0, [], [], [], none⟩ else _ from rfl]
  rw [he]
  exact ⟨rfl, rfl⟩

/-! ### Claim C2: `apply_filters`

Values reachable through `_get_nested_value` are modeled dynamically:
numbers, strings, `None`, datetimes, lists and dicts.  Python comparison
(`>=`/`<=`) between incompatible types — in particular `None` against a
number — raises `TypeError`, modeled with `Except`. -/

inductive PyVal
  | noneV
  | num (q : ℚ)
  | str (s : Str)
  | dt (t : Int)
  | list (l : List PyVal)
  | dict (d : List (Str × PyVal))

mutual

/-- Python `==` on dynamic values (`False` across constructors, never an
error).  Dict equality is modeled pairwise in insertion order — the
embedded dicts have canonical key order and no filter in the repository
compares dicts. -/
def pyEq : PyVal → PyVal → Bool
  | .noneV, .noneV => true
  | .num a, .num b => a == b
  | .str a, .str b => a == b
  | .dt a, .dt b => a == b
  | .list a, .list b => pyEqList a b
  | .dict a, .dict b => pyEqPairs a b
  | _, _ => false

/-- Elementwise Python `==` on lists. -/
def pyEqList : List PyVal → List PyVal → Bool
  | [], [] => true
  | a :: as, b :: bs => pyEq a b && pyEqList as bs
  | _, _ => false

/-- Pairwise Python `==` on dict entries. -/
def pyEqPairs : List (Str × PyVal) → List (Str × PyVal) → Bool
  | [], [] => true
  | (k, v) :: as, (k2, v2) :: bs => k == k2 && pyEq v v2 && pyEqPairs as bs
  | _, _ => false

end

/-- Lexicographic `<=` on strings (Python string comparison). -/
def strLe : Str → Str → Bool
  | [], _ => true
  | _ :: _, [] => false
  | a :: as, b :: bs => if a < b then true else if b < a then false else strLe as bs

/-- Python `a >= b` on dynamic values: defined between two numbers, two
strings or two datetimes; `TypeError` otherwise (notably `None >= x`). -/
def pyGe : PyVal → PyVal → Except Unit Bool
  | .num a, .num b => .ok (decide (b ≤ a))
  | .str a, .str b => .ok (strLe b a)
  | .dt a, .dt b => .ok (decide (b ≤ a))
  | _, _ => .error ()

/-- Python `a <= b` on dynamic values. -/
def pyLe : PyVal → PyVal → Except Unit Bool
  | .num a, .num b => .ok (decide (a ≤ b))
  | .str a, .str b => .ok (strLe a b)
  | .dt a, .dt b => .ok (decide (a ≤ b))
  | _, _ => .error ()

/-- Python `x in container`: membership for lists, substring for strings,
key membership for dicts; `TypeError` for `None`, numbers and datetimes
as containers. -/
def pyIn (x container : PyVal) : Except Unit Bool :=
  match container with
  | .list l => .ok (l.any (fun v => pyEq x v))
  | .str s =>
    match x with
    | .str sub => .ok (strContains s sub)
    | _ => .error ()
  | .dict d =>
    .ok (match x with
         | .str k => d.any (fun e => e.1 == k)
         | _ => false)
  | _ => .error ()

/-- The attributes of a `ProcessedContent`, as dynamic values (None-able
fields give `.noneV` when `None`); an unknown name is an absent
attribute.  Keyword and entity objects inside lists are rendered as
dicts of their fields — dotted paths cannot traverse into lists, so only
their `==` behavior is ever observable. -/
def getAttr (c : ProcessedContent) (name : Str) : Option PyVal :=
  if name == "content_id".data then some (.str c.content_id)
  else if name == "title".data then some (.str c.title)
  else if name == "cleaned_content".data then some (.str c.cleaned_content)
  else if name == "summary".data then some ((c.summary.map PyVal.str).getD .noneV)
  else if name == "keywords".data then
    some (.list (c.keywords.map (fun kw => .dict [("term".data, .str kw.term), ("score".data, .num kw.score)])))
  else if name == "entities".data then
    some (.list (c.entities.map (fun e => .dict [("text".data, .str e.text), ("label".data, .str e.label)])))
  else if name == "categories".data then some (.list (c.categories.map PyVal.str))
  else if name == "tags".data then some (.list (c.tags.map PyVal.str))
  else if name == "importance_score".data then some (.num c.importance_score)
  else if name == "quality_score".data then some (.num c.quality_score)
  else if name == "sentiment".data then
    some (match c.sentiment with
          | some s => .dict [("label".data, .str s.label),
                             ("confidence".data, .num s.confidence),
                             ("scores".data, .dict [("positive".data, .num s.pos_score),
                                                    ("negative".data, .num s.neg_score)])]
          | none => .noneV)
  else if name == "source".data then some ((c.source.map PyVal.str).getD .noneV)
  else if name == "author".data then some ((c.author.map PyVal.str).getD .noneV)
  else if name == "publish_time".data then some ((c.publish_time.map PyVal.dt).getD .noneV)
  else if name == "url".data then some ((c.url.map PyVal.str).getD .noneV)
  else if name == "extracted_links".data then some (.list (c.extracted_links.map PyVal.str))
  else if name == "source_authority".data then some (.num c.source_authority)
  else if name == "engagement_metrics".data then
    some (match c.engagement_metrics with
          | some m => .dict (m.map (fun p => (p.1, match p.2 with
                                                   | .num q => PyVal.num q
                                                   | .other => PyVal.noneV)))
          | none => .noneV)
  else if name == "processing_time".data then some ((c.processing_time.map PyVal.dt).getD .noneV)
  else none

/-- Walking the remaining dotted-path parts: `hasattr` fails on plain
values, so only dicts advance (via `.get`, yielding `None` for an absent
key); anything else returns the default. -/
def walkParts (v : PyVal) (parts : List Str) (default : PyVal) : PyVal :=
  match parts with
  | [] => v
  | p :: rest =>
    match v with
    | .dict d => walkParts (((d.find? (fun e => e.1 == p)).map (fun e => e.2)).getD .noneV) rest default
    | _ => default

/-- Embeds `ContentAggregator._get_nested_value(obj, path, default)`. -/
def get_nested_value (c : ProcessedContent) (path : Str) (default : PyVal) : PyVal :=
  match splitOnChar '.' path with
  | [] => default
  | p :: rest =>
    match getAttr c p with
    | some v => walkParts v rest default
    | none => default

/-- One filter condition of `apply_filters`: a `$gte`/`$lte`/`$in` dict
condition, a bare list (list-intersection), or a bare value (equality). -/
inductive FilterCond
  | gte (v : PyVal)
  | lte (v : PyVal)
  | inList (vs : List PyVal)
  | anyList (vs : List PyVal)
  | simple (v : PyVal)

/-- Python `any(p(v) for v in l)` where `p` may raise (short-circuit). -/
def exceptAny {α : Type} (p : α → Except Unit Bool) : List α → Except Unit Bool
  | [] => .ok false
  | x :: xs => do
    let b ← p x
    if b then pure true else exceptAny p xs

/-- The per-document predicate of one filter condition. -/
def condPred (field : Str) (cond : FilterCond) (c : ProcessedContent) : Except Unit Bool :=
  match cond with
  | .gte v => pyGe (get_nested_value c field .noneV) v
  | .lte v => pyLe (get_nested_value c field .noneV) v
  | .inList vs => .ok (vs.any (fun v => pyEq (get_nested_value c field .noneV) v))
  | .anyList vs => exceptAny (fun v => pyIn v (get_nested_value c field (.list []))) vs
  | .simple v => .ok (pyEq (get_nested_value c field .noneV) v)

/-- A Python list comprehension whose predicate may raise. -/
def exceptFilter {α : Type} (p : α → Except Unit Bool) : List α → Except Unit (List α)
  | [] => .ok []
  | x :: xs => do
    let b ← p x
    let rest ← exceptFilter p xs
    pure (if b then x :: rest else rest)

/-- Embeds `ContentAggregator.apply_filters(contents, filters)`: apply each
condition in turn, narrowing the list; a raised `TypeError` propagates. -/
def apply_filters (contents : List ProcessedContent)
    (filters : List (Str × FilterCond)) : Except Unit (List ProcessedContent) :=
  match filters with
  | [] => .ok contents
  | (field, cond) :: rest => do
    let filtered ← exceptFilter (condPred field cond) contents
    apply_filters filtered rest

theorem exceptFilter_total {α : Type} (p : α → Except Unit Bool) (f : α → Bool)
    (l : List α) (h : ∀ a ∈ l, p a = .ok (f a)) : exceptFilter p l = .ok (l.filter f) := by
  induction l with
  | nil => rfl
  | cons x xs ih =>
    show (do
      let b ← p x
      let rest ← exceptFilter p xs
      pure (if b then x :: rest else rest)) = _
    rw [h x (List.mem_cons_self _ _), ih (fun a ha => h a (List.mem_cons_of_mem _ ha))]
    rcases hf : f x with _ | _
    · rw [List.filter_cons, if_neg (by simp [hf])]
      rfl
    · rw [List.filter_cons, if_pos hf]
      rfl

theorem apply_filters_one (f : Str) (cond : FilterCond) (contents : List ProcessedContent)
    (g : ProcessedContent → Bool) (h : ∀ c ∈ contents, condPred f cond c = .ok (g c)) :
    apply_filters contents [(f, cond)] = .ok (contents.filter g) := by
  show (do
    let filtered ← exceptFilter (condPred f cond) contents
    apply_filters filtered []) = _
  rw [exceptFilter_total (condPred f cond) g contents h]
  rfl

theorem apply_filters_one_error (f : Str) (cond : FilterCond) (c : ProcessedContent)
    (rest : List ProcessedContent) (h : condPred f cond c = .error ()) :
    apply_filters (c :: rest) [(f, cond)] = .error () := by
  have hf : exceptFilter (condPred f cond) (c :: rest) = .error () := by
    show (do
      let b ← condPred f cond c
      let r ← exceptFilter (condPred f cond) rest
      pure (if b then c :: r else r)) = _
    rw [h]
    rfl
  show (do
    let filtered ← exceptFilter (condPred f cond) (c :: rest)
    apply_filters filtered []) = _
  rw [hf]
  rfl

/-- Sequential narrowing by error-free conditions is filtering by their
conjunction: whenever every condition of the list evaluates without a
`TypeError` on every document, `apply_filters` returns exactly the
documents satisfying every condition. -/
theorem apply_filters_all (filters : List (Str × FilterCond)) :
    ∀ (P : Str × FilterCond → ProcessedContent → Bool),
      (∀ fc ∈ filters, ∀ c : ProcessedContent, condPred fc.1 fc.2 c = .ok (P fc c)) →
      ∀ contents : List ProcessedContent,
        apply_filters contents filters =
          .ok (contents.filter (fun c => filters.all (fun fc => P fc c))) := by
  induction filters with
  | nil =>
    intro P h contents
    show Except.ok contents = _
    simp
  | cons fc rest ih =>
    intro P h contents
    rcases fc with ⟨f, cond⟩
    show (do
      let filtered ← exceptFilter (condPred f cond) contents
      apply_filters filtered rest) = _
    rw [exceptFilter_total (condPred f cond) (fun c => P (f, cond) c) contents
      (fun a _ => h (f, cond) (List.mem_cons_self _ _) a)]
    show apply_filters (contents.filter fun c => P (f, cond) c) rest = _
    rw [ih P (fun fc' hfc' c => h fc' (List.mem_cons_of_mem _ hfc') c)
      (contents.filter fun c => P (f, cond) c)]
    rw [List.filter_filter]
    congr 1
    apply List.filter_congr
    intro a _
    rw [List.all_cons, Bool.and_comm]

/-- C2 counterexample: a `$gte` filter on a field absent from the
documents raises a `TypeError` (`None >= 0.7`) instead of excluding the
document fail-closed: on the one-document corpus `[samplePC]` the filter
`{"nonexistent": {"$gte": 0.7}}` errors. -/
theorem apply_filters_counterexample :
    apply_filters [samplePC] [("nonexistent".data, .gte (.num (7/10)))] = .error () := rfl

theorem pyEq_none_num (q : ℚ) : pyEq PyVal.noneV (PyVal.num q) = false := by
  simp [pyEq]

theorem pyEq_none_left (v : PyVal) (h : v ≠ PyVal.noneV) :
    pyEq PyVal.noneV v = false := by
  cases v with
  | noneV => exact absurd rfl h
  | num q => simp [pyEq]
  | str s => simp [pyEq]
  | dt t => simp [pyEq]
  | list l => simp [pyEq]
  | dict d => simp [pyEq]

theorem any_pyEq_none_false (vs : List PyVal) (h : ∀ v ∈ vs, v ≠ PyVal.noneV) :
    vs.any (fun v => pyEq PyVal.noneV v) = false := by
  induction vs with
  | nil => rfl
  | cons v vs ih =>
    rw [List.any_cons, pyEq_none_left v (h v (List.mem_cons_self _ _)), Bool.false_or]
    exact ih (fun w hw => h w (List.mem_cons_of_mem _ hw))

theorem exceptAny_emptyList (vs : List PyVal) :
    exceptAny (fun v => pyIn v (PyVal.list [])) vs = .ok false := by
  induction vs with
  | nil => rfl
  | cons v vs ih => exact ih

/-- A concrete document with a present sentiment dict, exercising the
missing-dotted-key resolution path (`"sentiment.xyz"` → `None`). -/
def samplePC2 : ProcessedContent :=
  { samplePC with sentiment := some ⟨"neutral".data, 7/10, 0, 0⟩ }

theorem get_nested_importance (c : ProcessedContent) (d : PyVal) :
    get_nested_value c "importance_score".data d = .num c.importance_score := rfl

theorem get_nested_unknown (c : ProcessedContent) (d : PyVal) :
    get_nested_value c "nonexistent".data d = d := rfl

/-- C2 (corrected): whenever every condition evaluates without a type
error, `apply_filters` returns exactly the documents satisfying every
condition of the specification (general filter lists); numeric
`$gte`/`$lte` filters on any numeric-resolving field return exactly the
sub-corpus meeting the threshold (in particular `importance_score`).
A document whose referenced field is unknown or missing (resolving to
`None`) is excluded fail-closed without error under equality (condition
value not `None`) and `$in` (values not containing `None`); under
list-intersection only an unknown top-level attribute is fail-closed
(the `[]` default applies there) — a field that resolves to `None` (a
present null field such as `summary = None`, or a missing dotted key
such as `"sentiment.xyz"`) raises a `TypeError` under list-intersection,
as any unknown, missing or null field does under `$gte`/`$lte` (the
counterexample). -/
theorem apply_filters_amended :
    (∀ (filters : List (Str × FilterCond)) (P : Str × FilterCond → ProcessedContent → Bool),
      (∀ fc ∈ filters, ∀ c : ProcessedContent, condPred fc.1 fc.2 c = .ok (P fc c)) →
      ∀ contents : List ProcessedContent,
        apply_filters contents filters =
          .ok (contents.filter (fun c => filters.all (fun fc => P fc c)))) ∧
    (∀ (contents : List ProcessedContent) (f : Str) (t : ℚ) (val : ProcessedContent → ℚ),
      (∀ c ∈ contents, get_nested_value c f .noneV = .num (val c)) →
      apply_filters contents [(f, .gte (.num t))] =
        .ok (contents.filter (fun c => decide (t ≤ val c))) ∧
      apply_filters contents [(f, .lte (.num t))] =
        .ok (contents.filter (fun c => decide (val c ≤ t)))) ∧
    (∀ (contents : List ProcessedContent) (t : ℚ),
      apply_filters contents [("importance_score".data, .gte (.num t))] =
        .ok (contents.filter (fun c => decide (t ≤ c.importance_score)))) ∧
    (∀ (c : ProcessedContent) (rest : List ProcessedContent) (f : Str) (v : PyVal),
      get_nested_value c f .noneV = .noneV →
      apply_filters (c :: rest) [(f, .gte v)] = .error () ∧
      apply_filters (c :: rest) [(f, .lte v)] = .error ()) ∧
    (∀ (contents : List ProcessedContent) (f : Str) (v : PyVal),
      (∀ c ∈ contents, get_nested_value c f .noneV = .noneV) → v ≠ PyVal.noneV →
      apply_filters contents [(f, .simple v)] = .ok []) ∧
    (∀ (contents : List ProcessedContent) (f : Str) (vs : List PyVal),
      (∀ c ∈ contents, get_nested_value c f .noneV = .noneV) →
      (∀ v ∈ vs, v ≠ PyVal.noneV) →
      apply_filters contents [(f, .inList vs)] = .ok []) ∧
    (∀ (contents : List ProcessedContent) (f : Str) (vs : List PyVal),
      (∀ c ∈ contents, get_nested_value c f (.list []) = .list []) →
      apply_filters contents [(f, .anyList vs)] = .ok []) ∧
    (∀ (c : ProcessedContent) (rest : List ProcessedContent) (f : Str)
        (v : PyVal) (vs : List PyVal),
      get_nested_value c f (.list []) = .noneV →
      apply_filters (c :: rest) [(f, .anyList (v :: vs))] = .error ()) ∧
    get_nested_value samplePC "summary".data (.list []) = .noneV ∧
    get_nested_value samplePC2 "sentiment.xyz".data (.list []) = .noneV ∧
    apply_filters [samplePC] [("summary".data, .anyList [PyVal.str "x".data])] = .error () ∧
    apply_filters [samplePC2]
      [("sentiment.xyz".data, .anyList [PyVal.str "x".data])] = .error () := by
  refine ⟨fun filters => apply_filters_all filters, ?_, ?_, ?_, ?_, ?_, ?_, ?_,
    rfl, rfl, rfl, rfl⟩
  · intro contents f t val hval
    constructor
    · rw [apply_filters_one f (.gte (.num t)) contents (fun c => decide (t ≤ val c))
        (fun a ha => by
          rw [show condPred f (.gte (.num t)) a =
            pyGe (get_nested_value a f .noneV) (.num t) from rfl, hval a ha]
          rfl)]
    · rw [apply_filters_one f (.lte (.num t)) contents (fun c => decide (val c ≤ t))
        (fun a ha => by
          rw [show condPred f (.lte (.num t)) a =
            pyLe (get_nested_value a f .noneV) (.num t) from rfl, hval a ha]
          rfl)]
  · intro contents t
    rw [apply_filters_one "importance_score".data (.gte (.num t)) contents
      (fun c => decide (t ≤ c.importance_score)) (fun a _ => rfl)]
  · intro c rest f v hres
    constructor
    · refine apply_filters_one_error f (.gte v) c rest ?_
      rw [show condPred f (.gte v) c = pyGe (get_nested_value c f .noneV) v from rfl, hres]
      cases v <;> rfl
    · refine apply_filters_one_error f (.lte v) c rest ?_
      rw [show condPred f (.lte v) c = pyLe (get_nested_value c f .noneV) v from rfl, hres]
      cases v <;> rfl
  · intro contents f v hres hv
    rw [apply_filters_one f (.simple v) contents (fun _ => false)
      (fun a ha => by
        rw [show condPred f (.simple v) a =
          .ok (pyEq (get_nested_value a f .noneV) v) from rfl, hres a ha,
          pyEq_none_left v hv])]
    rw [show contents.filter (fun _ => false) = ([] : List ProcessedContent) by simp]
  · intro contents f vs hres hvs
    rw [apply_filters_one f (.inList vs) contents (fun _ => false)
      (fun a ha => by
        rw [show condPred f (.inList vs) a =
          .ok (vs.any (fun v => pyEq (get_nested_value a f .noneV) v)) from rfl,
          hres a ha, any_pyEq_none_false vs hvs])]
    rw [show contents.filter (fun _ => false) = ([] : List ProcessedContent) by simp]
  · intro contents f vs hres
    rw [apply_filters_one f (.anyList vs) contents (fun _ => false)
      (fun a ha => by
        rw [show condPred f (.anyList vs) a =
          exceptAny (fun v => pyIn v (get_nested_value a f (.list []))) vs from rfl,
          hres a ha, exceptAny_emptyList vs])]
    rw [show contents.filter (fun _ => false) = ([] : List ProcessedContent) by simp]
  · intro c rest f v vs hres
    refine apply_filters_one_error f (.anyList (v :: vs)) c rest ?_
    rw [show condPred f (.anyList (v :: vs)) c =
      exceptAny (fun w => pyIn w (get_nested_value c f (.list []))) (v :: vs) from rfl,
      hres]
    rfl

/-! ### Claim C7: the noise-removal line filter
(`ContentCleaner.remove_noise`) -/

/-- Embeds `ContentCleaner.noise_words`. -/
def noise_words : List Str :=
  ["点击这里".data, "查看更多".data, "立即购买".data, "免费下载".data, "广告".data]

/-- Collapse runs of a repeated character from `punct` to a single
occurrence (the `([。！？])\1+` / `([\.!?])\1+` regex substitutions). -/
def collapseRepeats (punct : List Char) : Str → Str
  | [] => []
  | [c] => [c]
  | c :: d :: rest =>
    if c = d && punct.contains c then collapseRepeats punct (d :: rest)
    else c :: collapseRepeats punct (d :: rest)

/-- The text of `remove_noise` after noise-word removal and repeated
terminal-punctuation collapsing, before the line filter. -/
def noiseScrubbed (text : Str) : Str :=
  collapseRepeats ['.', '!', '?']
    (collapseRepeats ['。', '！', '？']
      (noise_words.foldl (fun t w => replaceAll w [] t) text))

/-- The line filter of `remove_noise`:
`len(line) > 10 or (line and not line.isdigit())` on the stripped line. -/
def keepLine (line : Str) : Bool :=
  decide (10 < line.length) || (!line.isEmpty && !pyIsdigit line)

/-- The kept (stripped) lines of `remove_noise`. -/
def removeNoiseLines (text : Str) : List Str :=
  ((splitOnChar '\n' (noiseScrubbed text)).map trimStr).filter keepLine

/-- Embeds `ContentCleaner.remove_noise(text)`: empty text maps to empty text;
otherwise noise-word removal, punctuation collapsing and the line
filter, rejoined with newlines. -/
def remove_noise (text : Str) : Str :=
  if text.isEmpty then []
  else joinStr ['\n'] (removeNoiseLines text)

/-- C7 counterexample: on the input `"###"` the single output line is
`"###"` — it neither exceeds the 10-character threshold nor contains an
alphabetic character, yet it is kept (it is non-empty and not a digit
string), so short lines are not dropped for lacking alphabetic
content.  -/
theorem remove_noise_counterexample :
    removeNoiseLines "###".data = ["###".data] ∧
    remove_noise "###".data = "###".data ∧
    ¬ (10 < ("###".data : Str).length) ∧
    ("###".data : Str).any Char.isAlpha = false := by
  exact ⟨rfl, rfl, by decide, by decide⟩

/-- An alphabetic character is not a digit. -/
theorem isAlpha_not_isDigit (c : Char) (h : c.isAlpha = true) :
    c.isDigit = false := by
  simp only [Char.isAlpha, Char.isUpper, Char.isLower,
    Bool.or_eq_true, Bool.and_eq_true, decide_eq_true_eq] at h
  rw [Char.isDigit, Bool.eq_false_iff]
  intro hd
  rw [Bool.and_eq_true, decide_eq_true_eq, decide_eq_true_eq] at hd
  simp only [ge_iff_le, UInt32.le_def, BitVec.le_def] at h hd
  have e48 : (UInt32.toBitVec 48).toNat = 48 := rfl
  have e57 : (UInt32.toBitVec 57).toNat = 57 := rfl
  have e65 : (UInt32.toBitVec 65).toNat = 65 := rfl
  have e90 : (UInt32.toBitVec 90).toNat = 90 := rfl
  have e97 : (UInt32.toBitVec 97).toNat = 97 := rfl
  have e122 : (UInt32.toBitVec 122).toNat = 122 := rfl
  rw [e48, e57] at hd
  rw [e65, e90, e97, e122] at h
  omega

/-- C7 (corrected): every output line of `remove_noise` either exceeds
the 10-character threshold or is non-empty and not a pure digit string
(rather than necessarily containing alphabetic content); and no line
containing an alphabetic character is dropped — every stripped line of
the pre-filter text with an alphabetic character appears among the kept
lines. -/
theorem remove_noise_amended (text : Str) :
    (∀ line ∈ removeNoiseLines text,
      10 < line.length ∨ (line ≠ [] ∧ ¬ line.all Char.isDigit = true)) ∧
    (∀ line ∈ (splitOnChar '\n' (noiseScrubbed text)).map trimStr,
      line.any Char.isAlpha = true → line ∈ removeNoiseLines text) := by
  constructor
  · intro line hline
    have hk : keepLine line = true := (List.mem_filter.mp hline).2
    rcases Bool.or_eq_true_iff.mp hk with h | h
    · exact Or.inl (by simpa using h)
    · rcases Bool.and_eq_true_iff.mp h with ⟨h1, h2⟩
      have hne : line.isEmpty = false := by simpa using h1
      have hnd : pyIsdigit line = false := by simpa using h2
      refine Or.inr ⟨by simpa [List.isEmpty_iff] using hne, ?_⟩
      intro hall
      have : pyIsdigit line = true := by
        unfold pyIsdigit
        rw [hne, hall]
        rfl
      rw [this] at hnd
      exact absurd hnd (by simp)
  · intro line hline halpha
    refine List.mem_filter.mpr ⟨hline, ?_⟩
    rcases List.any_eq_true.mp halpha with ⟨c, hc, hca⟩
    have hne : line.isEmpty = false := by
      rcases line with _ | _
      · simp at hc
      · rfl
    have hnd : pyIsdigit line = false := by
      unfold pyIsdigit
      rw [hne]
      have : line.all Char.isDigit = false := by
        rcases hall : line.all Char.isDigit with _ | _
        · rfl
        · have := List.all_eq_true.mp hall c hc
          rw [isAlpha_not_isDigit c hca] at this
          exact absurd this (by simp)
      rw [this]
      rfl
    unfold keepLine
    rw [hne, hnd]
    simp

/-! ### Claim C1: dedup in `DataProcessor.process_content`
(`data_processor.py`)

The cleaner, keyword extractor and content scorer are the processor's
injected collaborators, so `process_content` is parameterized over them.
The cache backend is live (the claim's assumption): the dedup state is
the pair of key sets, with the md5/sha256 keys modeled by the hashed
strings themselves (`processed_url:` keyed by the url, `content_hash:`
keyed by the whitespace-normalized content). -/

/-- Embeds `CollectedData` (schemas.py). -/
structure CollectedData where
  data_id : Str
  source_id : Str
  source_type : Str
  source : Str
  title : Str
  content : Option Str
  url : Str
  author : Option Str
  publish_time : Option Int
  tags : List Str
  collected_time : Int

/-- Embeds `CleaningResult` (content_cleaner.py). -/
structure CleaningResult where
  cleaned_content : Str
  extracted_links : List Str
  removed_elements : List Str
  quality_score : ℚ

/-- The live dedup cache: the keys present in the `processed_url:` and
`content_hash:` namespaces. -/
structure DedupState where
  processed_urls : List Str
  content_hashes : List Str

/-- The processor's injected collaborators (`content_cleaner.clean`,
`keyword_extractor.extract_keywords(·, 20, "AI")`, `extract_entities`,
`extract_topics`, `content_scorer.calculate_importance`). -/
structure Collaborators where
  clean : Str → CleaningResult
  extract_keywords : Str → List Keyword
  extract_entities : Str → List Entity
  extract_topics : Str → List Str
  score : ProcessedContent → ℚ

/-- Embeds `DataProcessor._calculate_content_hash`: the whitespace
normalization `' '.join(content.split())` (its sha256 is modeled by the
normalized string itself). -/
def calculate_content_hash (content : Str) : Str := joinStr [' '] (wsSplit content)

/-- Embeds `DataProcessor._is_already_processed(url)` with a live cache: false
for a falsy url, otherwise a `processed_url` namespace lookup. -/
def is_already_processed (st : DedupState) (url : Str) : Bool :=
  if url.isEmpty then false else strMem url st.processed_urls

/-- Embeds `DataProcessor._mark_as_processed(url, content_hash)` with a live
cache: no-op for a falsy url, otherwise mark both namespaces. -/
def mark_as_processed (st : DedupState) (url : Str) (content_hash : Str) : DedupState :=
  if url.isEmpty then st
  else ⟨url :: st.processed_urls, content_hash :: st.content_hashes⟩

/-- Embeds `DataProcessor.positive_words`. -/
def positive_words : List Str :=
  ["突破".data, "创新".data, "成功".data, "领先".data, "优秀".data,
   "breakthrough".data, "success".data, "excellent".data]

/-- Embeds `DataProcessor.negative_words`. -/
def negative_words : List Str :=
  ["失败".data, "问题".data, "风险".data, "担忧".data, "争议".data,
   "failure".data, "problem".data, "risk".data]

/-- Embeds `DataProcessor._analyze_sentiment(text)`. -/
def analyze_sentiment (text : Str) : Sentiment :=
  let text_lower := lowerStr text
  let positive_count := (positive_words.filter (fun w => strContains text_lower w)).length
  let negative_count := (negative_words.filter (fun w => strContains text_lower w)).length
  let total := max (wsSplit text).length 1
  let pos_score := (positive_count : ℚ) / (total : ℚ)
  let neg_score := (negative_count : ℚ) / (total : ℚ)
  if negative_count < positive_count then
    ⟨"positive".data, min (9/10) (1/2 + (positive_count : ℚ) * (1/10)), pos_score, neg_score⟩
  else if positive_count < negative_count then
    ⟨"negative".data, min (9/10) (1/2 + (negative_count : ℚ) * (1/10)), pos_score, neg_score⟩
  else
    ⟨"neutral".data, 7/10, pos_score, neg_score⟩

/-- Add to a Python set, modeled as a duplicate-free list in insertion
order (Python's set iteration order is unspecified; the claims never
depend on it). -/
def addUnique (l : List Str) (x : Str) : List Str :=
  if strMem x l then l else l ++ [x]

/-- The topic→category table of `DataProcessor._categorize_content`. -/
def topic_category_map : List (Str × Str) :=
  [("深度学习".data, "技术".data),
   ("自然语言处理".data, "技术".data),
   ("计算机视觉".data, "技术".data),
   ("机器学习".data, "技术".data),
   ("大语言模型".data, "技术".data),
   ("生成式AI".data, "应用".data)]

/-- Embeds `DataProcessor._categorize_content(keywords, topics, tags)` (the
`tags` argument is accepted but unused, as in the source). -/
def categorize_content (keywords : List Keyword) (topics : List Str)
    (tags : List Str) : List Str :=
  let c1 := topics.foldl
    (fun acc topic =>
      match topic_category_map.find? (fun p => p.1 == topic) with
      | some p => addUnique acc p.2
      | none => acc)
    []
  let keyword_terms := keywords.map (fun kw => lowerStr kw.term)
  let c2 :=
    if keyword_terms.any (fun t =>
        strMem t ["research".data, "研究".data, "paper".data, "论文".data]) then
      addUnique c1 "研究".data
    else c1
  let c3 :=
    if keyword_terms.any (fun t =>
        strMem t ["product".data, "产品".data, "launch".data, "发布".data, "release".data]) then
      addUnique c2 "产品".data
    else c2
  let c4 :=
    if keyword_terms.any (fun t =>
        strMem t ["investment".data, "投资".data, "funding".data, "融资".data]) then
      addUnique c3 "投资".data
    else c3
  if c4.isEmpty then ["行业动态".data] else c4

/-- Embeds `DataProcessor._merge_tags(original_tags, keywords)`: the original
tags as a set plus the first five keywords scoring above 0.5. -/
def merge_tags (original_tags : List Str) (keywords : List Keyword) : List Str :=
  let base := original_tags.foldl addUnique []
  (keywords.take 5).foldl
    (fun acc kw => if 1/2 < kw.score then addUnique acc kw.term else acc) base

/-- The index of the last occurrence of `c` in `s`, or -1
(Python `str.rfind`). -/
def rfindAux : Str → Char → Nat → Int → Int
  | [], _, _, best => best
  | d :: rest, c, i, best => rfindAux rest c (i + 1) (if d == c then (i : Int) else best)

/-- Python `s.rfind(c)`. -/
def rfindIdx (s : Str) (c : Char) : Int := rfindAux s c 0 (-1)

/-- Embeds `DataProcessor._generate_summary(content)`: the first 200
characters, cut at the last period past position 100 when there is one,
else suffixed with `"..."`. -/
def generate_summary (content : Str) : Str :=
  if content.length ≤ 200 then content
  else
    let summary := content.take 200
    let lp0 := rfindIdx summary '。'
    let lp := if lp0 == -1 then rfindIdx summary '.' else lp0
    if 100 < lp then summary.take (lp.toNat + 1) else summary ++ "...".data

/-- Embeds `DataProcessor.process_content(collected_data)` over the dedup
state: reject on a falsy title; reject when the url is already in the
`processed_url` namespace (checked before any cleaning); clean; reject
when the cleaned text is shorter than 50 characters; build the
`ProcessedContent` (importance score set last, by the scorer, on the
otherwise-complete record); compute the content hash and mark both
namespaces.  The content hash is never looked up. -/
def process_content (now : Int) (col : Collaborators) (d : CollectedData)
    (st : DedupState) : Option ProcessedContent × DedupState :=
  if d.title.isEmpty then (none, st)
  else if is_already_processed st d.url then (none, st)
  else
    let cr := col.clean (d.content.getD [])
    if cr.cleaned_content.length < 50 then (none, st)
    else
      let keywords := col.extract_keywords cr.cleaned_content
      let entities := col.extract_entities cr.cleaned_content
      let topics := col.extract_topics cr.cleaned_content
      let sentiment := analyze_sentiment cr.cleaned_content
      let categories := categorize_content keywords topics d.tags
      let pc0 : ProcessedContent :=
        ⟨d.data_id, d.title, cr.cleaned_content,
         some (generate_summary cr.cleaned_content), keywords, entities,
         categories, merge_tags d.tags keywords, 0, cr.quality_score,
         some sentiment, some d.source, d.author, d.publish_time, some d.url,
         cr.extracted_links, 7/10, some [], some now⟩
      let pc := { pc0 with importance_score := col.score pc0 }
      let content_hash := calculate_content_hash cr.cleaned_content
      (some pc, mark_as_processed st d.url content_hash)

/-- A cleaner standing in for any deterministic cleaner on inputs it
leaves unchanged. -/
def idClean : Str → CleaningResult := fun s => ⟨s, [], [], 1⟩

/-- Concrete trivial collaborators for the counterexample and
witnesses. -/
def trivialCollab : Collaborators :=
  ⟨idClean, fun _ => [], fun _ => [], fun _ => [], fun _ => 0⟩

/-- A 60-character body (long enough to pass the 50-character gate). -/
def bodyText : Str :=
  "aaaaaaaaaaaaaaaaaaaaaaaaaaaaaaaaaaaaaaaaaaaaaaaaaaaaaaaaaaaa".data

def cdA : CollectedData :=
  ⟨"d1".data, "s1".data, "rss".data, "src".data, "Title one".data,
   some bodyText, "http://a.example/x".data, none, none, [], 0⟩

def cdB : CollectedData :=
  { cdA with data_id := "d2".data, url := "http://b.example/x".data }

/-- C1 counterexample: two documents with identical content under
different urls are BOTH emitted when processed sequentially from the
empty cache — the content hash is marked but never checked, so
processing yields two `ProcessedContent`s, not exactly one. -/
theorem process_content_counterexample :
    (process_content 0 trivialCollab cdA ⟨[], []⟩).1.isSome = true ∧
    (process_content 0 trivialCollab cdB
      (process_content 0 trivialCollab cdA ⟨[], []⟩).2).1.isSome = true ∧
    cdA.url ≠ cdB.url ∧ cdA.content = cdB.content :=
  ⟨rfl, rfl, by decide, rfl⟩

theorem process_content_some_state (now : Int) (col : Collaborators)
    (d : CollectedData) (st : DedupState) (hne : d.url ≠ [])
    (h : (process_content now col d st).1.isSome = true) :
    (process_content now col d st).2.processed_urls = d.url :: st.processed_urls := by
  unfold process_content at h ⊢
  by_cases ht : d.title.isEmpty
  · rw [if_pos ht] at h
    exact absurd h (by simp)
  · rw [if_neg ht] at h ⊢
    rcases hp : is_already_processed st d.url with _ | _
    · rw [if_neg (by simp [hp])] at h ⊢
      by_cases hl : (col.clean (d.content.getD [])).cleaned_content.length < 50
      · rw [if_pos hl] at h
        exact absurd h (by simp)
      · rw [if_neg hl] at h ⊢
        show (mark_as_processed st d.url _).processed_urls = _
        unfold mark_as_processed
        rw [if_neg (by simpa [List.isEmpty_iff] using hne)]
    · rw [if_pos (by simp [hp])] at h
      exact absurd h (by simp)

theorem process_content_rejects_seen_url (now : Int) (col : Collaborators)
    (d : CollectedData) (st : DedupState) (hne : d.url ≠ [])
    (h : strMem d.url st.processed_urls = true) :
    (process_content now col d st).1 = none := by
  unfold process_content
  by_cases ht : d.title.isEmpty
  · rw [if_pos ht]
  · rw [if_neg ht]
    have hp : is_already_processed st d.url = true := by
      unfold is_already_processed
      rw [if_neg (by simpa [List.isEmpty_iff] using hne), h]
    rw [if_pos (by simp [hp])]

/-- C1 (corrected): processing two documents with the same non-empty url
sequentially through `process_content` with a live cache yields at most
one `ProcessedContent` — if the first is emitted, the second is rejected
by the url check before any cleaning.  (For identical normalized content
under different urls the guarantee does not hold: the content hash is
computed and marked on emission but never checked, as the counterexample
shows.) -/
theorem process_content_same_url_amended (now : Int) (col : Collaborators)
    (d1 d2 : CollectedData) (st : DedupState)
    (hurl : d2.url = d1.url) (hne : d1.url ≠ [])
    (h1 : (process_content now col d1 st).1.isSome = true) :
    (process_content now col d2 (process_content now col d1 st).2).1 = none := by
  apply process_content_rejects_seen_url
  · rw [hurl]
    exact hne
  · rw [process_content_some_state now col d1 st hne h1, hurl, strMem_cons]
    simp

/-- Witness for C1's amended theorem: the same document (same url)
processed twice from the empty cache — the first run emits, the second
returns no result. -/
theorem process_content_same_url_amended_witness :
    (process_content 0 trivialCollab cdA
      (process_content 0 trivialCollab cdA ⟨[], []⟩).2).1 = none :=
  process_content_same_url_amended 0 trivialCollab cdA cdA ⟨[], []⟩ rfl (by decide) rfl

end NewsPipeline
